import Mathlib

/-!
Verification of the meeting-slot discovery and scoring engine of
calendar-mcp (src/calendar_mcp/calendar_client.py), shallowly embedded.

Timestamps are modelled as whole minutes (Int) since a fixed epoch taken
to be a Monday 00:00, so that day-of-week and hour-of-day are pure
arithmetic on the timestamp, matching the naive-datetime arithmetic of
the source (timezone resolution is upstream per the spec).  The Python
code compares gaps in fractional minutes; at whole-minute granularity
the comparisons coincide.  The adjacency test `abs(... seconds) < 300`
becomes `|difference in minutes| < 5`.
-/

namespace CalendarMCP

/-- A normalized calendar event as produced by the external fetch
collaborator: `summary`, `start`/`end` timestamps (the latter called
`stop` here because `end` is reserved), the Google `eventType` tag and
the attendee list (only its emptiness is ever inspected). -/
structure Event where
  summary : String
  start : Int
  stop : Int
  eventType : String
  attendees : List String
  deriving Repr, DecidableEq

/-- A half-open candidate interval, as built by the free-slot finder and
the deep-work extractor: a dict with `start` and `end` keys in the code. -/
structure Slot where
  start : Int
  stop : Int
  deriving Repr, DecidableEq

/-- The preference configuration consumed by the core
(`config.preferences` and `config.preferences.meetingPreferences`),
with defaults already resolved as the `.get` calls in the source do. -/
structure Preferences where
  flexibleBlockPatterns : List String
  deepWorkPatterns : List String
  neverAvailablePatterns : List String
  preferredDays : List (String × Int)
  afternoonStartHour : Int
  preferAdjacentToMeetings : Bool
  avoidDeepWorkBlocks : Bool
  deepWorkBlockUsage : String
  deriving Repr

/-- One entry of the `suggestions` list returned by
`find_meeting_times` (isoformat strings in the code are kept as the
underlying timestamps here). -/
structure Suggestion where
  start : Int
  stop : Int
  duration : Int
  type : String
  score : Int
  reason : String
  deriving Repr, DecidableEq

/-- The success payload of `find_meeting_times`. -/
structure PlanResult where
  suggestions : List Suggestion
  totalFound : Nat
  usedDeepWork : Bool
  deriving Repr, DecidableEq

/-- Character-wise lowering of a string (`str.lower()`; the patterns
and summaries involved are ASCII, where per-character `Char.toLower`
agrees with Python). -/
def lowerChars (s : String) : List Char :=
  s.data.map Char.toLower

/-- Contiguous-sublist test on character lists (Python `in` on
strings). -/
def isInfixChars (p : List Char) : List Char → Bool
  | [] => p.isEmpty
  | c :: rest => p.isPrefixOf (c :: rest) || isInfixChars p rest

/-- Python `pattern.lower() in summary.lower()`: case-insensitive
substring containment. -/
def containsLower (pattern summary : String) : Bool :=
  isInfixChars (lowerChars pattern) (lowerChars summary)

/-- Scan of a pattern list against a summary, as the `for pattern in
patterns: if pattern.lower() in summary` loops do (first match wins,
which for the returned label is the same as `any`). -/
def matchesAnyPattern (patterns : List String) (summary : String) : Bool :=
  patterns.any (fun p => containsLower p summary)

/-- `CalendarClient._classify_block`: priority order is the event-type
tag, then flexible patterns, then deep-work patterns, then non-empty
attendees, then `unknown`. -/
def classify_block (prefs : Preferences) (event : Event) : String :=
  if event.eventType == "focusTime" then "deep-work"
  else if event.eventType == "outOfOffice" then "out-of-office"
  else if matchesAnyPattern prefs.flexibleBlockPatterns event.summary then "flexible"
  else if matchesAnyPattern prefs.deepWorkPatterns event.summary then "deep-work"
  else if 0 < event.attendees.length then "meeting"
  else "unknown"

/-- The `is_never_available` closure inside `find_meeting_times`. -/
def is_never_available (patterns : List String) (event : Event) : Bool :=
  patterns.any (fun p => containsLower p event.summary)

/-- Stable insertion of an event into a list sorted by `start`
ascending (the inserted element goes before later elements with an
equal key, reproducing Python's stable `sorted`). -/
def insertByStart (e : Event) : List Event → List Event
  | [] => [e]
  | f :: rest =>
    if e.start ≤ f.start then e :: f :: rest else f :: insertByStart e rest

/-- The `sorted(busy_events, key=lambda e: e.get('start', ''))` call of
`_find_free_slots` (ISO-8601 string order coincides with timestamp
order for the normalized events). -/
def sortByStart : List Event → List Event
  | [] => []
  | e :: rest => insertByStart e (sortByStart rest)

/-- The cursor walk of `_find_free_slots`: for each event in order,
emit `[t, t+duration)` when the gap before the event is at least the
requested duration, then advance the cursor to the event's end if that
moves it forward; after the loop check the final gap against
`end_date`. -/
def freeSlotsGo (end_date duration_minutes : Int) :
    List Event → Int → List Slot
  | [], t =>
    if duration_minutes ≤ end_date - t then
      [⟨t, t + duration_minutes⟩]
    else []
  | e :: rest, t =>
    (if duration_minutes ≤ e.start - t then
      [(⟨t, t + duration_minutes⟩ : Slot)]
     else []) ++
      freeSlotsGo end_date duration_minutes rest
        (if t < e.stop then e.stop else t)

/-- `CalendarClient._find_free_slots`. -/
def find_free_slots (busy_events : List Event)
    (start_date end_date duration_minutes : Int) : List Slot :=
  freeSlotsGo end_date duration_minutes (sortByStart busy_events) start_date

/-- Day-of-week name of a timestamp (`strftime('%A')`), with the epoch
fixed at a Monday 00:00. -/
def dayName (t : Int) : String :=
  match ((t.ediv 1440).emod 7).toNat with
  | 0 => "Monday"
  | 1 => "Tuesday"
  | 2 => "Wednesday"
  | 3 => "Thursday"
  | 4 => "Friday"
  | 5 => "Saturday"
  | _ => "Sunday"

/-- Hour of day of a timestamp (`datetime.hour`). -/
def hourOf (t : Int) : Int :=
  (t.emod 1440).ediv 60

/-- Python `key in dict` plus `dict[key]` on the `preferredDays`
mapping, modelled as association-list lookup. -/
def lookupDay (days : List (String × Int)) (key : String) : Option Int :=
  (days.find? (fun p => p.1 == key)).map (fun p => p.2)

/-- The per-event adjacency test of `_score_slot`: the meeting's end is
within 5 minutes of the slot's start, or the meeting's start is within
5 minutes of the slot's end. -/
def adjacentToMeeting (slot : Slot) (event : Event) : Bool :=
  (slot.start - event.stop).natAbs < 5 || (event.start - slot.stop).natAbs < 5

/-- `CalendarClient._score_slot`: base 50, then the day/time bonus via
the `"<Day>-PM"`-then-`"<Day>"` membership checks, then a single +30
adjacency bonus (the loop breaks at the first adjacent meeting, which
is `any`). -/
def score_slot (prefs : Preferences) (slot : Slot)
    (meeting_events : List Event) (prefer_adjacent : Bool) : Int :=
  let base : Int := 50
  let day_name := dayName slot.start
  let withDay :=
    if prefs.afternoonStartHour ≤ hourOf slot.start then
      match lookupDay prefs.preferredDays (day_name ++ "-PM") with
      | some v => base + v
      | none =>
        match lookupDay prefs.preferredDays day_name with
        | some v => base + v
        | none => base
    else
      match lookupDay prefs.preferredDays day_name with
      | some v => base + v
      | none => base
  if prefer_adjacent && meeting_events.any (adjacentToMeeting slot) then
    withDay + 30
  else withDay

/-- `CalendarClient._find_deep_work_slots`: one end- or start-anchored
sub-slot per deep-work block of sufficient length; the
`never_avail_events` parameter is accepted but never read, exactly as
in the source. -/
def find_deep_work_slots (deep_work_events : List Event)
    (duration_minutes : Int) (usage : String)
    (never_avail_events : List Event) : List Slot :=
  deep_work_events.filterMap (fun e =>
    if e.stop - e.start < duration_minutes then none
    else if usage == "end" then some ⟨e.stop - duration_minutes, e.stop⟩
    else if usage == "start" then some ⟨e.start, e.start + duration_minutes⟩
    else none)

/-- The never-available bucket of the partition loop in
`find_meeting_times` (order-preserving, as the loop appends). -/
def neverAvailEventsOf (prefs : Preferences) (events : List Event) : List Event :=
  events.filter (fun e => is_never_available prefs.neverAvailablePatterns e)

/-- The deep-work bucket of the partition loop. -/
def deepWorkEventsOf (prefs : Preferences) (events : List Event) : List Event :=
  (events.filter (fun e => !is_never_available prefs.neverAvailablePatterns e)).filter
    (fun e => classify_block prefs e == "deep-work")

/-- The `meeting_events` bucket of the partition loop (everything not
never-available and not classified deep-work). -/
def meetingEventsOf (prefs : Preferences) (events : List Event) : List Event :=
  (events.filter (fun e => !is_never_available prefs.neverAvailablePatterns e)).filter
    (fun e => classify_block prefs e != "deep-work")

/-- The tier-1 free slots of `find_meeting_times`: the gap finder run
over `meeting_events + never_avail_events`. -/
def freeSlotsOf (prefs : Preferences)
    (start_date end_date duration_minutes : Int)
    (events : List Event) : List Slot :=
  find_free_slots (meetingEventsOf prefs events ++ neverAvailEventsOf prefs events)
    start_date end_date duration_minutes

/-- The tier-1 suggestion dict built for one free slot. -/
def mkFreeSuggestion (prefs : Preferences) (duration_minutes : Int)
    (meeting_events : List Event) (slot : Slot) : Suggestion :=
  let score := score_slot prefs slot meeting_events prefs.preferAdjacentToMeetings
  { start := slot.start
    stop := slot.stop
    duration := duration_minutes
    type := "free"
    score := score
    reason := "Completely free" ++
      (if 50 < score then " (adjacent to meetings)" else "") }

/-- The tier-2 suggestion dict built for one deep-work slot. -/
def mkDeepSuggestion (usage : String) (duration_minutes : Int)
    (slot : Slot) : Suggestion :=
  { start := slot.start
    stop := slot.stop
    duration := duration_minutes
    type := "deep-work"
    score := 25
    reason := "Deep work block (" ++ usage ++ " of block)" }

/-- Stable insertion for the descending score sort
(`suggestions.sort(key=..., reverse=True)`): the inserted element goes
before equal-scored later elements. -/
def insertDesc (s : Suggestion) : List Suggestion → List Suggestion
  | [] => [s]
  | x :: l => if x.score ≤ s.score then s :: x :: l else x :: insertDesc s l

/-- Stable descending-by-score sort of the suggestion list. -/
def sortDesc : List Suggestion → List Suggestion
  | [] => []
  | s :: rest => insertDesc s (sortDesc rest)

/-- The scored and sorted tier-1 suggestion list of
`find_meeting_times`: the first `2 * max_suggestions` free slots,
scored against `meeting_events`, sorted descending by score. -/
def tier1SuggestionsOf (prefs : Preferences)
    (start_date end_date duration_minutes : Int) (max_suggestions : Nat)
    (events : List Event) : List Suggestion :=
  sortDesc (((freeSlotsOf prefs start_date end_date duration_minutes events).take
      (max_suggestions * 2)).map
    (mkFreeSuggestion prefs duration_minutes (meetingEventsOf prefs events)))

/-- `CalendarClient.find_meeting_times`, generalized over the tier-2
extractor so that non-invocation of the extractor is expressible.  The
upstream fetch is a parameter: `.error` models a `list_events` result
carrying an `error` key, `.ok` the normal `events` list.  The final
`'deep_work_slots' in locals()` dance of the source is the branch
split: the tier-2 branch reports `totalFound`/`usedDeepWork` from the
extracted slots, the other returns use the tier-1-only values. -/
def find_meeting_times_gen
    (dwFinder : List Event → Int → String → List Event → List Slot)
    (prefs : Preferences) (start_date end_date duration_minutes : Int)
    (max_suggestions : Nat)
    (fetched : Except String (List Event)) : Except String PlanResult :=
  match fetched with
  | .error e => .error e
  | .ok events =>
    let deep_work_events := deepWorkEventsOf prefs events
    let never_avail_events := neverAvailEventsOf prefs events
    let free_slots := freeSlotsOf prefs start_date end_date duration_minutes events
    let suggestions :=
      tier1SuggestionsOf prefs start_date end_date duration_minutes max_suggestions events
    if max_suggestions ≤ suggestions.length then
      .ok ⟨suggestions.take max_suggestions, free_slots.length, false⟩
    else if prefs.avoidDeepWorkBlocks ∧ suggestions.length < max_suggestions ∧
        0 < deep_work_events.length then
      let deep_work_slots :=
        dwFinder deep_work_events duration_minutes prefs.deepWorkBlockUsage
          never_avail_events
      let suggestions2 := suggestions ++
        deep_work_slots.map (mkDeepSuggestion prefs.deepWorkBlockUsage duration_minutes)
      .ok ⟨suggestions2.take max_suggestions,
           free_slots.length + deep_work_slots.length,
           decide (free_slots.length < suggestions2.length)⟩
    else
      .ok ⟨suggestions.take max_suggestions, free_slots.length, false⟩

/-- `CalendarClient.find_meeting_times` proper. -/
def find_meeting_times (prefs : Preferences)
    (start_date end_date duration_minutes : Int) (max_suggestions : Nat)
    (fetched : Except String (List Event)) : Except String PlanResult :=
  find_meeting_times_gen find_deep_work_slots prefs start_date end_date
    duration_minutes max_suggestions fetched

/-- The condition under which the tier-2 block of `find_meeting_times`
executes (`avoid_deep_work and len(suggestions) < max_suggestions and
len(deep_work_events) > 0`, reached only when the early return did not
fire). -/
def tier2Ran (prefs : Preferences)
    (start_date end_date duration_minutes : Int) (max_suggestions : Nat)
    (events : List Event) : Prop :=
  ¬ (max_suggestions ≤
      (tier1SuggestionsOf prefs start_date end_date duration_minutes
        max_suggestions events).length) ∧
  (prefs.avoidDeepWorkBlocks ∧
    (tier1SuggestionsOf prefs start_date end_date duration_minutes
      max_suggestions events).length < max_suggestions ∧
    0 < (deepWorkEventsOf prefs events).length)

instance (prefs : Preferences) (sd ed d : Int) (m : Nat) (evs : List Event) :
    Decidable (tier2Ran prefs sd ed d m evs) := by
  unfold tier2Ran
  infer_instance

/-- Projection used to state properties of the suggestion list of a
planner result uniformly over the success and error cases. -/
def resultSuggestions (r : Except String PlanResult) : List Suggestion :=
  match r with
  | .ok pr => pr.suggestions
  | .error _ => []

/-- The day/time bonus exactly as the spec words it: when the slot
starts in the afternoon look up the `"<Day>-PM"` key first and fall
back to the bare `"<Day>"` key, otherwise look up the bare key; a
missing key contributes 0.  Stated separately from `score_slot` so the
code's membership-check-then-index structure can be proved equal to
this description. -/
def spec_dayBonus (prefs : Preferences) (t : Int) : Int :=
  let day := dayName t
  if prefs.afternoonStartHour ≤ hourOf t then
    match lookupDay prefs.preferredDays (day ++ "-PM") with
    | some v => v
    | none => (lookupDay prefs.preferredDays day).getD 0
  else (lookupDay prefs.preferredDays day).getD 0

instance : DecidableEq (Except String PlanResult) := fun a b =>
  match a, b with
  | .error x, .error y =>
    if h : x = y then isTrue (by rw [h]) else
      isFalse (fun hc => h (by cases hc; rfl))
  | .error _, .ok _ => isFalse (fun hc => nomatch hc)
  | .ok _, .error _ => isFalse (fun hc => nomatch hc)
  | .ok x, .ok y =>
    if h : x = y then isTrue (by rw [h]) else
      isFalse (fun hc => h (by cases hc; rfl))

/-- A representative configuration, matching the defaults and the
example weights documented in the source. -/
def samplePrefs : Preferences :=
  { flexibleBlockPatterns := ["flexible", "optional", "buffer", "hold"]
    deepWorkPatterns := ["deep work", "focus", "blocked", "writing", "research", "reading"]
    neverAvailablePatterns := ["gym", "lunch"]
    preferredDays := [("Wednesday-PM", 100), ("Thursday", 100)]
    afternoonStartHour := 12
    preferAdjacentToMeetings := true
    avoidDeepWorkBlocks := true
    deepWorkBlockUsage := "end" }

/-- A deep-work block 00:00-03:00 Monday (pattern-classified). -/
def dwEvent : Event := ⟨"Deep Work session", 0, 180, "default", []⟩

/-- A never-available block 02:30-05:00 Monday (summary matches
"gym"). -/
def naEvent : Event := ⟨"Gym", 150, 300, "default", []⟩

/-- The planner output on the window [0, 600) with duration 30 and the
events `[dwEvent, naEvent]`: two tier-1 slots plus the tier-2 slot
carved from the end of the deep-work block. -/
def sampleRunResult : PlanResult :=
  ⟨[⟨0, 30, 30, "free", 50, "Completely free"⟩,
    ⟨300, 330, 30, "free", 50, "Completely free"⟩,
    ⟨150, 180, 30, "deep-work", 25, "Deep work block (end of block)"⟩],
   3, true⟩

/- ### Sorting lemmas -/

theorem mem_insertByStart {e a : Event} {l : List Event} :
    a ∈ insertByStart e l ↔ a = e ∨ a ∈ l := by
  induction l with
  | nil => simp [insertByStart]
  | cons f rest ih =>
    by_cases h : e.start ≤ f.start
    · simp [insertByStart, h]
    · simp only [insertByStart, if_neg h, List.mem_cons, ih]
      tauto

theorem sorted_insertByStart {e : Event} {l : List Event}
    (hl : l.Pairwise (fun a b => a.start ≤ b.start)) :
    (insertByStart e l).Pairwise (fun a b => a.start ≤ b.start) := by
  induction l with
  | nil => simp [insertByStart]
  | cons f rest ih =>
    rcases List.pairwise_cons.1 hl with ⟨hf, hrest⟩
    by_cases h : e.start ≤ f.start
    · rw [insertByStart, if_pos h]
      refine List.pairwise_cons.2 ⟨?_, hl⟩
      intro b hb
      rcases List.mem_cons.1 hb with rfl | hb
      · exact h
      · exact le_trans h (hf b hb)
    · rw [insertByStart, if_neg h]
      refine List.pairwise_cons.2 ⟨?_, ih hrest⟩
      intro b hb
      rcases mem_insertByStart.1 hb with rfl | hb
      · exact le_of_not_le h
      · exact hf b hb

theorem mem_sortByStart {a : Event} {l : List Event} :
    a ∈ sortByStart l ↔ a ∈ l := by
  induction l with
  | nil => simp [sortByStart]
  | cons e rest ih => simp [sortByStart, mem_insertByStart, ih]

theorem sorted_sortByStart (l : List Event) :
    (sortByStart l).Pairwise (fun a b => a.start ≤ b.start) := by
  induction l with
  | nil => simp [sortByStart]
  | cons e rest ih => exact sorted_insertByStart ih

theorem mem_insertDesc {s a : Suggestion} {l : List Suggestion} :
    a ∈ insertDesc s l ↔ a = s ∨ a ∈ l := by
  induction l with
  | nil => simp [insertDesc]
  | cons x rest ih =>
    by_cases h : x.score ≤ s.score
    · simp [insertDesc, h]
    · simp only [insertDesc, if_neg h, List.mem_cons, ih]
      tauto

theorem mem_sortDesc {a : Suggestion} {l : List Suggestion} :
    a ∈ sortDesc l ↔ a ∈ l := by
  induction l with
  | nil => simp [sortDesc]
  | cons s rest ih => simp [sortDesc, mem_insertDesc, ih]

theorem length_insertDesc (s : Suggestion) (l : List Suggestion) :
    (insertDesc s l).length = l.length + 1 := by
  induction l with
  | nil => simp [insertDesc]
  | cons x rest ih =>
    by_cases h : x.score ≤ s.score
    · simp [insertDesc, h]
    · simp [insertDesc, h, ih]

theorem length_sortDesc (l : List Suggestion) :
    (sortDesc l).length = l.length := by
  induction l with
  | nil => simp [sortDesc]
  | cons s rest ih => simp [sortDesc, length_insertDesc, ih]

/- ### Cursor-walk lemmas for the free-slot finder -/

theorem freeSlotsGo_shape {ed d : Int} :
    ∀ (l : List Event) (t : Int), ∀ s ∈ freeSlotsGo ed d l t,
      t ≤ s.start ∧ s.stop = s.start + d := by
  intro l
  induction l with
  | nil =>
    intro t s hs
    rw [freeSlotsGo] at hs
    split at hs
    · simp only [List.mem_singleton] at hs
      subst hs
      exact ⟨le_refl _, rfl⟩
    · simp at hs
  | cons f rest ih =>
    intro t s hs
    rw [freeSlotsGo] at hs
    rcases List.mem_append.1 hs with hs | hs
    · split at hs
      · simp only [List.mem_singleton] at hs
        subst hs
        exact ⟨le_refl _, rfl⟩
      · simp at hs
    · have h := ih _ s hs
      refine ⟨le_trans ?_ h.1, h.2⟩
      split
      · omega
      · exact le_refl t

theorem freeSlotsGo_no_overlap {ed d : Int} :
    ∀ (l : List Event) (t : Int),
      l.Pairwise (fun a b => a.start ≤ b.start) →
      ∀ s ∈ freeSlotsGo ed d l t, ∀ e ∈ l,
        s.stop ≤ e.start ∨ e.stop ≤ s.start := by
  intro l
  induction l with
  | nil => intro t _ s _ e he; simp at he
  | cons f rest ih =>
    intro t hl s hs e he
    rcases List.pairwise_cons.1 hl with ⟨hf, hrest⟩
    rw [freeSlotsGo] at hs
    rcases List.mem_append.1 hs with hs | hs
    · split at hs
      case isTrue hcond =>
        simp only [List.mem_singleton] at hs
        subst hs
        rcases List.mem_cons.1 he with rfl | he
        · left; simp only; omega
        · left
          have := hf e he
          simp only
          omega
      case isFalse => simp at hs
    · rcases List.mem_cons.1 he with rfl | he
      · right
        have h1 := (freeSlotsGo_shape rest _ s hs).1
        split at h1 <;> omega
      · exact ih _ hrest s hs e he

theorem freeSlotsGo_within {ed d : Int} :
    ∀ (l : List Event) (t : Int), (∀ e ∈ l, e.start ≤ ed) →
      ∀ s ∈ freeSlotsGo ed d l t, s.stop ≤ ed := by
  intro l
  induction l with
  | nil =>
    intro t _ s hs
    rw [freeSlotsGo] at hs
    split at hs
    · simp only [List.mem_singleton] at hs
      subst hs
      simp only
      omega
    · simp at hs
  | cons f rest ih =>
    intro t hed s hs
    rw [freeSlotsGo] at hs
    rcases List.mem_append.1 hs with hs | hs
    · split at hs
      case isTrue hcond =>
        simp only [List.mem_singleton] at hs
        subst hs
        have := hed f (List.mem_cons_self f rest)
        simp only
        omega
      case isFalse => simp at hs
    · exact ih _ (fun e he => hed e (List.mem_cons_of_mem f he)) s hs

theorem find_free_slots_shape {busy : List Event} {sd ed d : Int}
    (s : Slot) (hs : s ∈ find_free_slots busy sd ed d) :
    sd ≤ s.start ∧ s.stop = s.start + d :=
  freeSlotsGo_shape _ _ s hs

theorem find_free_slots_no_overlap {busy : List Event} {sd ed d : Int}
    (s : Slot) (hs : s ∈ find_free_slots busy sd ed d)
    (e : Event) (he : e ∈ busy) : s.stop ≤ e.start ∨ e.stop ≤ s.start :=
  freeSlotsGo_no_overlap _ _ (sorted_sortByStart busy) s hs e
    (mem_sortByStart.2 he)

theorem find_free_slots_within {busy : List Event} {sd ed d : Int}
    (hed : ∀ e ∈ busy, e.start ≤ ed)
    (s : Slot) (hs : s ∈ find_free_slots busy sd ed d) : s.stop ≤ ed :=
  freeSlotsGo_within _ _ (fun e he => hed e (mem_sortByStart.1 he)) s hs

/- ### Planner-level helper lemmas -/

theorem mem_take_append {α : Type} (a : α) :
    ∀ (t : List α) (r : List α) (n : Nat), t.length < n →
      a ∈ (t ++ a :: r).take n := by
  intro t
  induction t with
  | nil =>
    intro r n hn
    match n, hn with
    | n + 1, _ => simp [List.take]
  | cons x t2 ih =>
    intro r n hn
    match n, hn with
    | n + 1, hn =>
      simp only [List.cons_append, List.take]
      exact List.mem_cons_of_mem x (ih r n (by simpa using hn))

theorem find_deep_work_slots_shape {dw : List Event} {d : Int} {u : String}
    {na : List Event} (s : Slot) (hs : s ∈ find_deep_work_slots dw d u na) :
    s.stop = s.start + d := by
  rw [find_deep_work_slots] at hs
  rcases List.mem_filterMap.1 hs with ⟨e, _, hfe⟩
  split at hfe
  · simp at hfe
  · split at hfe
    · simp only [Option.some.injEq] at hfe
      subst hfe
      simp only
      omega
    · split at hfe
      · simp only [Option.some.injEq] at hfe
        subst hfe
        simp only
      · simp at hfe

theorem busy_mem_events {prefs : Preferences} {evs : List Event} {e : Event}
    (he : e ∈ meetingEventsOf prefs evs ++ neverAvailEventsOf prefs evs) :
    e ∈ evs := by
  rcases List.mem_append.1 he with he | he
  · exact (List.mem_filter.1 (List.mem_filter.1 he).1).1
  · exact (List.mem_filter.1 he).1

theorem obstruction_mem_busy {prefs : Preferences} {evs : List Event} {e : Event}
    (he : e ∈ evs)
    (hcls : is_never_available prefs.neverAvailablePatterns e = true ∨
      classify_block prefs e = "meeting") :
    e ∈ meetingEventsOf prefs evs ++ neverAvailEventsOf prefs evs := by
  by_cases hna : is_never_available prefs.neverAvailablePatterns e
  · exact List.mem_append.2 (Or.inr (List.mem_filter.2 ⟨he, hna⟩))
  · rcases hcls with hcls | hcls
    · exact absurd hcls hna
    · refine List.mem_append.2 (Or.inl (List.mem_filter.2 ⟨List.mem_filter.2 ⟨he, ?_⟩, ?_⟩))
      · simp [hna]
      · rw [hcls]
        decide

theorem tier1_mem {prefs : Preferences} {sd ed d : Int} {m : Nat}
    {evs : List Event} {s : Suggestion}
    (hs : s ∈ tier1SuggestionsOf prefs sd ed d m evs) :
    s.type = "free" ∧ s.duration = d ∧
    ∃ slot ∈ freeSlotsOf prefs sd ed d evs,
      s.start = slot.start ∧ s.stop = slot.stop := by
  rw [tier1SuggestionsOf] at hs
  have hs2 := mem_sortDesc.1 hs
  rcases List.mem_map.1 hs2 with ⟨slot, hslot, rfl⟩
  exact ⟨rfl, rfl, slot, List.mem_of_mem_take hslot, rfl, rfl⟩

theorem tier1_length (prefs : Preferences) (sd ed d : Int) (m : Nat)
    (evs : List Event) :
    (tier1SuggestionsOf prefs sd ed d m evs).length =
      min (m * 2) (freeSlotsOf prefs sd ed d evs).length := by
  rw [tier1SuggestionsOf, length_sortDesc, List.length_map, List.length_take]

/-- Case analysis on the result of a successful planner run: either the
tier-2 block did not execute and the result is the tier-1-only record,
or it did and the result carries the appended deep-work suggestions and
the deep-work-aware metadata. -/
theorem find_meeting_times_ok_cases
    (prefs : Preferences) (sd ed d : Int) (m : Nat) (evs : List Event)
    (r : PlanResult)
    (h : find_meeting_times prefs sd ed d m (.ok evs) = .ok r) :
    (¬ tier2Ran prefs sd ed d m evs ∧
      r = ⟨(tier1SuggestionsOf prefs sd ed d m evs).take m,
           (freeSlotsOf prefs sd ed d evs).length, false⟩) ∨
    (tier2Ran prefs sd ed d m evs ∧
      r = ⟨(tier1SuggestionsOf prefs sd ed d m evs ++
              (find_deep_work_slots (deepWorkEventsOf prefs evs) d
                prefs.deepWorkBlockUsage (neverAvailEventsOf prefs evs)).map
                (mkDeepSuggestion prefs.deepWorkBlockUsage d)).take m,
           (freeSlotsOf prefs sd ed d evs).length +
             (find_deep_work_slots (deepWorkEventsOf prefs evs) d
               prefs.deepWorkBlockUsage (neverAvailEventsOf prefs evs)).length,
           decide ((freeSlotsOf prefs sd ed d evs).length <
             (tier1SuggestionsOf prefs sd ed d m evs ++
               (find_deep_work_slots (deepWorkEventsOf prefs evs) d
                 prefs.deepWorkBlockUsage (neverAvailEventsOf prefs evs)).map
                 (mkDeepSuggestion prefs.deepWorkBlockUsage d)).length)⟩) := by
  rw [find_meeting_times, find_meeting_times_gen] at h
  simp only [] at h
  split at h
  case isTrue hcond =>
    left
    refine ⟨fun hc => hc.1 hcond, ?_⟩
    cases h
    rfl
  case isFalse hcond =>
    split at h
    case isTrue hcond2 =>
      right
      refine ⟨⟨hcond, hcond2⟩, ?_⟩
      cases h
      rfl
    case isFalse hcond2 =>
      left
      refine ⟨fun hc => hcond2 hc.2, ?_⟩
      cases h
      rfl

/-- A successful fetch always produces a success result: every branch
of the planner returns a plain result record. -/
theorem find_meeting_times_ok_exists
    (prefs : Preferences) (sd ed d : Int) (m : Nat) (evs : List Event) :
    ∃ r : PlanResult,
      find_meeting_times prefs sd ed d m (.ok evs) = .ok r := by
  rw [find_meeting_times, find_meeting_times_gen]
  simp only []
  split
  · exact ⟨_, rfl⟩
  · split
    · exact ⟨_, rfl⟩
    · exact ⟨_, rfl⟩

/- ### Claim theorems -/

/-- C4: when the upstream event fetch reports an error, the planner
returns exactly that error value and performs no classification,
free-slot computation, or scoring — the result is the propagated error
for every preference configuration and for every tier-2 extractor. -/
theorem C4_error_short_circuit :
    ∀ (prefs : Preferences) (sd ed d : Int) (m : Nat) (msg : String),
      find_meeting_times prefs sd ed d m (.error msg) = .error msg ∧
      ∀ f, find_meeting_times_gen f prefs sd ed d m (.error msg) =
        .error msg := by
  intro prefs sd ed d m msg
  exact ⟨rfl, fun f => rfl⟩

/-- C10: the deep-work slot extractor is completely independent of its
never-available-events argument — two calls differing only in that
argument return identical slot lists. -/
theorem C10_never_available_ignored :
    ∀ (dw : List Event) (d : Int) (usage : String) (na1 na2 : List Event),
      find_deep_work_slots dw d usage na1 =
        find_deep_work_slots dw d usage na2 := by
  intro dw d usage na1 na2
  rfl

/-- C2 counterexample: with a non-positive duration (0 minutes) and a
well-formed window the planner does not reject the request — it
returns a success result containing one (degenerate) candidate, not an
explicit error with zero candidates. -/
theorem C2_counterexample :
    find_meeting_times samplePrefs 0 100 0 5 (.ok []) =
      .ok ⟨[⟨0, 0, 0, "free", 50, "Completely free"⟩], 1, false⟩ := by
  decide

/-- C2 amended: the planner performs no request validation at all.  A
successful fetch always yields a success result (never an explicit
error), even when the duration is non-positive or the window is
inverted; for an inverted window with no events and a positive duration
it returns zero candidates, but as an ordinary empty success result,
not an error. -/
theorem C2_no_validation :
    ∀ (prefs : Preferences) (sd ed d : Int) (m : Nat) (evs : List Event),
      (∃ r : PlanResult,
        find_meeting_times prefs sd ed d m (.ok evs) = .ok r) ∧
      (ed ≤ sd → 0 < d →
        find_meeting_times prefs sd ed d m (.ok []) = .ok ⟨[], 0, false⟩) := by
  intro prefs sd ed d m evs
  refine ⟨find_meeting_times_ok_exists prefs sd ed d m evs, ?_⟩
  intro hw hd
  have hfree : freeSlotsOf prefs sd ed d [] = [] := by
    rw [freeSlotsOf, meetingEventsOf, neverAvailEventsOf]
    simp only [List.filter_nil, List.append_nil, find_free_slots, sortByStart,
      freeSlotsGo]
    rw [if_neg]
    omega
  have htier : tier1SuggestionsOf prefs sd ed d m [] = [] := by
    rw [tier1SuggestionsOf, hfree]
    simp [sortDesc]
  obtain ⟨r, hr⟩ := find_meeting_times_ok_exists prefs sd ed d m []
  rcases find_meeting_times_ok_cases prefs sd ed d m [] r hr with
    ⟨_, rfl⟩ | ⟨hran, _⟩
  · rw [hr, hfree, htier]
    simp
  · exfalso
    rcases hran with ⟨_, _, _, h0⟩
    simp [deepWorkEventsOf] at h0

/-- C2 witness: the amended statement evaluated on an inverted window
with no events. -/
theorem C2_no_validation_witness :
    (∃ r : PlanResult,
      find_meeting_times samplePrefs 10 0 30 5 (.ok []) = .ok r) ∧
    find_meeting_times samplePrefs 10 0 30 5 (.ok []) = .ok ⟨[], 0, false⟩ :=
  ⟨(C2_no_validation samplePrefs 10 0 30 5 []).1,
   (C2_no_validation samplePrefs 10 0 30 5 []).2 (by decide) (by decide)⟩

/-- C5: whenever the scored tier-1 list already has at least
`maxSuggestions` entries the planner returns immediately with the top
`maxSuggestions` tier-1 candidates and `usedDeepWork = false`, and the
tier-2 extractor is never invoked: the result is the same for every
extractor that could be plugged in, regardless of
`avoidDeepWorkBlocks` or the presence of deep-work events. -/
theorem C5_early_return :
    ∀ (prefs : Preferences) (sd ed d : Int) (m : Nat) (evs : List Event),
      m ≤ (tier1SuggestionsOf prefs sd ed d m evs).length →
      (∀ f g, find_meeting_times_gen f prefs sd ed d m (.ok evs) =
        find_meeting_times_gen g prefs sd ed d m (.ok evs)) ∧
      find_meeting_times prefs sd ed d m (.ok evs) =
        .ok ⟨(tier1SuggestionsOf prefs sd ed d m evs).take m,
             (freeSlotsOf prefs sd ed d evs).length, false⟩ := by
  intro prefs sd ed d m evs h
  constructor
  · intro f g
    rw [find_meeting_times_gen, find_meeting_times_gen]
    simp only []
    rw [if_pos h, if_pos h]
  · rw [find_meeting_times, find_meeting_times_gen]
    simp only []
    rw [if_pos h]

/-- C5 witness: a window with a single free slot and
`maxSuggestions = 1`, evaluated with two different extractors. -/
theorem C5_early_return_witness :
    (1 ≤ (tier1SuggestionsOf samplePrefs 0 60 30 1 []).length) ∧
    find_meeting_times_gen (fun _ _ _ _ => []) samplePrefs 0 60 30 1 (.ok []) =
      find_meeting_times_gen find_deep_work_slots samplePrefs 0 60 30 1
        (.ok []) ∧
    find_meeting_times samplePrefs 0 60 30 1 (.ok []) =
      .ok ⟨(tier1SuggestionsOf samplePrefs 0 60 30 1 []).take 1,
           (freeSlotsOf samplePrefs 0 60 30 []).length, false⟩ :=
  ⟨by decide,
   (C5_early_return samplePrefs 0 60 30 1 [] (by decide)).1
     (fun _ _ _ _ => []) find_deep_work_slots,
   (C5_early_return samplePrefs 0 60 30 1 [] (by decide)).2⟩

/-- C6: the classifier is a first-match-wins chain in the order: event
type tag, flexible patterns, deep-work patterns, non-empty attendees,
unknown.  In particular `eventType = focusTime` yields `deep-work`
regardless of the summary, so the type tag takes priority over every
text pattern. -/
theorem C6_classifier_priority :
    ∀ (prefs : Preferences) (e : Event),
      (e.eventType = "focusTime" → classify_block prefs e = "deep-work") ∧
      (e.eventType ≠ "focusTime" → e.eventType ≠ "outOfOffice" →
        (matchesAnyPattern prefs.flexibleBlockPatterns e.summary = true →
          classify_block prefs e = "flexible") ∧
        (matchesAnyPattern prefs.flexibleBlockPatterns e.summary = false →
          (matchesAnyPattern prefs.deepWorkPatterns e.summary = true →
            classify_block prefs e = "deep-work") ∧
          (matchesAnyPattern prefs.deepWorkPatterns e.summary = false →
            (e.attendees ≠ [] → classify_block prefs e = "meeting") ∧
            (e.attendees = [] → classify_block prefs e = "unknown")))) := by
  intro prefs e
  constructor
  · intro h
    simp [classify_block, h]
  · intro h1 h2
    have b1 : (e.eventType == "focusTime") = false := by
      simp [h1]
    have b2 : (e.eventType == "outOfOffice") = false := by
      simp [h2]
    refine ⟨?_, ?_⟩
    · intro hflex
      simp [classify_block, b1, b2, hflex]
    · intro hflex
      refine ⟨?_, ?_⟩
      · intro hdeep
        simp [classify_block, b1, b2, hflex, hdeep]
      · intro hdeep
        refine ⟨?_, ?_⟩
        · intro hatt
          have : 0 < e.attendees.length := List.length_pos.2 hatt
          simp [classify_block, b1, b2, hflex, hdeep, this]
        · intro hatt
          simp [classify_block, b1, b2, hflex, hdeep, hatt]

/-- C6 witness: one concrete event per rule of the chain; the first is
the spec's scenario of a focus-time tag together with a
flexible-matching summary. -/
theorem C6_classifier_priority_witness :
    classify_block samplePrefs ⟨"Flexible hold", 0, 60, "focusTime", []⟩ =
        "deep-work" ∧
    classify_block samplePrefs ⟨"flexible buffer", 0, 60, "default", []⟩ =
        "flexible" ∧
    classify_block samplePrefs ⟨"Deep Work", 0, 60, "default", ["a"]⟩ =
        "deep-work" ∧
    classify_block samplePrefs ⟨"1:1 sync", 0, 60, "default", ["a"]⟩ =
        "meeting" ∧
    classify_block samplePrefs ⟨"dentist", 0, 60, "default", []⟩ =
        "unknown" :=
  ⟨(C6_classifier_priority samplePrefs _).1 rfl,
   (((C6_classifier_priority samplePrefs _).2 (by decide) (by decide)).1
     (by decide)),
   ((((C6_classifier_priority samplePrefs _).2 (by decide) (by decide)).2
     (by decide)).1 (by decide)),
   (((((C6_classifier_priority samplePrefs _).2 (by decide) (by decide)).2
     (by decide)).2 (by decide)).1 (by decide)),
   (((((C6_classifier_priority samplePrefs _).2 (by decide) (by decide)).2
     (by decide)).2 (by decide)).2 rfl)⟩

/-- C7: for busy intervals sorted by start and pairwise disjoint and a
positive duration, every candidate of the free-slot finder has length
exactly the requested duration and overlaps no busy interval — the
exact-length disjoint slot inside a gap certifies that a candidate is
emitted only from gaps of at least the requested duration. -/
theorem C7_free_slot_safety :
    ∀ (busy : List Event) (sd ed d : Int),
      busy.Pairwise (fun a b => a.start ≤ b.start) →
      busy.Pairwise (fun a b => a.stop ≤ b.start ∨ b.stop ≤ a.start) →
      0 < d →
      ∀ s ∈ find_free_slots busy sd ed d,
        s.stop = s.start + d ∧
        ∀ e ∈ busy, s.stop ≤ e.start ∨ e.stop ≤ s.start := by
  intro busy sd ed d _ _ _ s hs
  exact ⟨(find_free_slots_shape s hs).2,
    fun e he => find_free_slots_no_overlap s hs e he⟩

/-- C7 witness: two sorted disjoint meetings inside a four-hour window,
requested duration 30 minutes. -/
theorem C7_free_slot_safety_witness :
    ([⟨"standup", 60, 90, "default", ["x"]⟩,
      ⟨"review", 120, 180, "default", ["y"]⟩] : List Event).Pairwise
        (fun a b => a.start ≤ b.start) ∧
    ([⟨"standup", 60, 90, "default", ["x"]⟩,
      ⟨"review", 120, 180, "default", ["y"]⟩] : List Event).Pairwise
        (fun a b => a.stop ≤ b.start ∨ b.stop ≤ a.start) ∧
    ∀ s ∈ find_free_slots
        [⟨"standup", 60, 90, "default", ["x"]⟩,
         ⟨"review", 120, 180, "default", ["y"]⟩] 0 240 30,
      s.stop = s.start + 30 ∧
      ∀ e ∈ ([⟨"standup", 60, 90, "default", ["x"]⟩,
              ⟨"review", 120, 180, "default", ["y"]⟩] : List Event),
        s.stop ≤ e.start ∨ e.stop ≤ s.start :=
  ⟨by decide, by decide,
   C7_free_slot_safety _ 0 240 30 (by decide) (by decide) (by decide)⟩

/-- C8: the scorer is base 50 plus the day/time bonus in the
spec-described lookup order (afternoon slots consult `"<Day>-PM"`
first, then fall back to the bare day key; a missing key contributes
0) plus a single +30 adjacency bonus; on a Wednesday 14:00 slot with
`preferredDays = [("Wednesday-PM", 100)]` and `afternoonStartHour = 12`
and no adjacent meeting the score is 150. -/
theorem C8_scorer_day_lookup :
    score_slot samplePrefs ⟨3720, 3750⟩ [] true = 150 ∧
    ∀ (prefs : Preferences) (slot : Slot) (meetings : List Event)
      (padj : Bool),
      score_slot prefs slot meetings padj =
        50 + spec_dayBonus prefs slot.start +
          (if padj && meetings.any (adjacentToMeeting slot) then 30
           else 0) := by
  refine ⟨by decide, ?_⟩
  intro prefs slot meetings padj
  simp only [score_slot, spec_dayBonus]
  cases hpm : lookupDay prefs.preferredDays (dayName slot.start ++ "-PM") <;>
    cases hday : lookupDay prefs.preferredDays (dayName slot.start) <;>
    by_cases haft : prefs.afternoonStartHour ≤ hourOf slot.start <;>
    by_cases hadj : (padj && meetings.any (adjacentToMeeting slot)) = true <;>
    simp [haft, hadj, Option.getD]

theorem filterMap_eq_map_filter {α β : Type} (p : α → Bool) (g : α → β)
    (f : α → Option β) (hf : ∀ a, f a = if p a then some (g a) else none)
    (l : List α) : l.filterMap f = (l.filter p).map g := by
  induction l with
  | nil => simp
  | cons a l ih =>
    rw [List.filterMap_cons, hf a, List.filter_cons]
    by_cases h : p a
    · simp [h, ih]
    · simp [h, ih]

/-- C9: the extractor emits exactly one candidate per deep-work block
of sufficient length — the last `duration` minutes of the block when
usage is `end`, the first `duration` minutes when usage is `start` —
and silently drops shorter blocks; the 09:00-12:00 block with duration
30 and usage `end` yields exactly `[11:30, 12:00)`; and in the planner
output every deep-work-typed suggestion carries the fixed score 25. -/
theorem C9_deep_work_extractor :
    find_deep_work_slots [⟨"Writing", 540, 720, "default", []⟩] 30 "end" [] =
        [⟨690, 720⟩] ∧
    (∀ (dw : List Event) (d : Int) (na : List Event),
      find_deep_work_slots dw d "end" na =
        (dw.filter (fun e => decide (d ≤ e.stop - e.start))).map
          (fun e => ⟨e.stop - d, e.stop⟩)) ∧
    (∀ (dw : List Event) (d : Int) (na : List Event),
      find_deep_work_slots dw d "start" na =
        (dw.filter (fun e => decide (d ≤ e.stop - e.start))).map
          (fun e => ⟨e.start, e.start + d⟩)) ∧
    (∀ (prefs : Preferences) (sd ed d : Int) (m : Nat) (evs : List Event),
      (resultSuggestions (find_meeting_times prefs sd ed d m (.ok evs))).all
        (fun s => (s.type != "deep-work") || (s.score == 25)) = true) := by
  refine ⟨by decide, ?_, ?_, ?_⟩
  · intro dw d na
    rw [find_deep_work_slots]
    apply filterMap_eq_map_filter
    intro e
    by_cases h : e.stop - e.start < d
    · have h2 : ¬ (d ≤ e.stop - e.start) := by omega
      simp [h, h2]
    · have h2 : d ≤ e.stop - e.start := by omega
      simp [h, h2]
  · intro dw d na
    rw [find_deep_work_slots]
    apply filterMap_eq_map_filter
    intro e
    by_cases h : e.stop - e.start < d
    · have h2 : ¬ (d ≤ e.stop - e.start) := by omega
      simp [h, h2]
    · have h2 : d ≤ e.stop - e.start := by omega
      simp [h, h2]
  · intro prefs sd ed d m evs
    obtain ⟨r, hr⟩ := find_meeting_times_ok_exists prefs sd ed d m evs
    rw [hr]
    simp only [resultSuggestions]
    apply List.all_eq_true.2
    intro s hs
    rcases find_meeting_times_ok_cases prefs sd ed d m evs r hr with
      ⟨_, rfl⟩ | ⟨_, rfl⟩
    · rcases tier1_mem (List.mem_of_mem_take hs) with ⟨hty, _, _⟩
      simp [hty]
    · rcases List.mem_append.1 (List.mem_of_mem_take hs) with h1 | h1
      · rcases tier1_mem h1 with ⟨hty, _, _⟩
        simp [hty]
      · rcases List.mem_map.1 h1 with ⟨slot, _, rfl⟩
        simp [mkDeepSuggestion]

/-- Every tier-1 suggestion is a free-typed, exact-duration slot inside
the window (as long as fetched events start inside the window, which
the upstream time-window filter guarantees) that is disjoint from every
never-available event and from every meeting-classified event. -/
theorem tier1_slot_props {prefs : Preferences} {sd ed d : Int} {m : Nat}
    {evs : List Event} {s : Suggestion}
    (hwin : ∀ e ∈ evs, e.start ≤ ed)
    (hs : s ∈ tier1SuggestionsOf prefs sd ed d m evs) :
    s.type = "free" ∧ s.duration = d ∧ s.stop = s.start + d ∧
    sd ≤ s.start ∧ s.stop ≤ ed ∧
    ∀ e ∈ evs,
      (is_never_available prefs.neverAvailablePatterns e = true ∨
        classify_block prefs e = "meeting") →
      s.stop ≤ e.start ∨ e.stop ≤ s.start := by
  rcases tier1_mem hs with ⟨hty, hdur, slot, hslot, hstart, hstop⟩
  have hbusy_ed : ∀ e ∈ meetingEventsOf prefs evs ++ neverAvailEventsOf prefs evs,
      e.start ≤ ed := fun e he => hwin e (busy_mem_events he)
  have hshape := find_free_slots_shape slot hslot
  have hwithin := find_free_slots_within hbusy_ed slot hslot
  refine ⟨hty, hdur, ?_, ?_, ?_, ?_⟩
  · rw [hstart, hstop, hshape.2]
  · rw [hstart]
    exact hshape.1
  · rw [hstop]
    exact hwithin
  · intro e he hcls
    rw [hstart, hstop]
    exact find_free_slots_no_overlap slot hslot e (obstruction_mem_busy he hcls)

/-- C1 (amended): every suggestion returned by the planner has
`duration` equal to the requested duration and spans exactly that many
minutes; every tier-1 (`free`-typed) suggestion additionally lies
inside the requested window and overlaps no meeting-classified and no
never-available event.  (Tier-2 `deep-work` suggestions are carved out
of deep-work blocks without any window, meeting, or never-available
check — see the counterexample.) -/
theorem C1_slot_invariants :
    ∀ (prefs : Preferences) (sd ed d : Int) (m : Nat) (evs : List Event)
      (r : PlanResult),
      0 < d →
      (∀ e ∈ evs, e.start ≤ ed) →
      find_meeting_times prefs sd ed d m (.ok evs) = .ok r →
      ∀ s ∈ r.suggestions,
        s.duration = d ∧ s.stop = s.start + d ∧
        (s.type = "free" →
          sd ≤ s.start ∧ s.stop ≤ ed ∧
          ∀ e ∈ evs,
            (is_never_available prefs.neverAvailablePatterns e = true ∨
              classify_block prefs e = "meeting") →
            s.stop ≤ e.start ∨ e.stop ≤ s.start) := by
  intro prefs sd ed d m evs r _ hwin h s hs
  rcases find_meeting_times_ok_cases prefs sd ed d m evs r h with
    ⟨_, rfl⟩ | ⟨_, rfl⟩
  · rcases tier1_slot_props hwin (List.mem_of_mem_take hs) with
      ⟨_, h1, h2, h3, h4, h5⟩
    exact ⟨h1, h2, fun _ => ⟨h3, h4, h5⟩⟩
  · rcases List.mem_append.1 (List.mem_of_mem_take hs) with h1 | h1
    · rcases tier1_slot_props hwin h1 with ⟨_, ha, hb, hc, hd2, he2⟩
      exact ⟨ha, hb, fun _ => ⟨hc, hd2, he2⟩⟩
    · rcases List.mem_map.1 h1 with ⟨slot, hslot, rfl⟩
      refine ⟨rfl, ?_, ?_⟩
      · simpa [mkDeepSuggestion] using find_deep_work_slots_shape slot hslot
      · intro hty
        simp [mkDeepSuggestion] at hty

/-- C1 counterexample: a deep-work block 00:00-03:00 and a
never-available "Gym" block 02:30-05:00 inside the window [0, 600).
Tier 2 fires and offers the end-anchored slot [02:30, 03:00), which
overlaps the never-available interval — refuting the claim that no
candidate (tier-2 included) overlaps a never-available interval. -/
theorem C1_counterexample :
    is_never_available samplePrefs.neverAvailablePatterns naEvent = true ∧
    naEvent ∈ [dwEvent, naEvent] ∧
    (resultSuggestions (find_meeting_times samplePrefs 0 600 30 5
        (.ok [dwEvent, naEvent]))).any
      (fun s => decide (naEvent.start < s.stop) &&
        decide (s.start < naEvent.stop)) = true := by
  decide

/-- C1 witness: the amended invariant evaluated on a concrete request
with one never-available event. -/
theorem C1_slot_invariants_witness :
    ((0 : Int) < 30 ∧ (∀ e ∈ ([naEvent] : List Event), e.start ≤ 600) ∧
      find_meeting_times samplePrefs 0 600 30 5 (.ok [naEvent]) =
        .ok ⟨[⟨0, 30, 30, "free", 50, "Completely free"⟩,
              ⟨300, 330, 30, "free", 50, "Completely free"⟩], 2, false⟩) ∧
    ∀ s ∈ (PlanResult.mk [⟨0, 30, 30, "free", 50, "Completely free"⟩,
        ⟨300, 330, 30, "free", 50, "Completely free"⟩] 2 false).suggestions,
      s.duration = 30 ∧ s.stop = s.start + 30 ∧
      (s.type = "free" →
        (0 : Int) ≤ s.start ∧ s.stop ≤ 600 ∧
        ∀ e ∈ ([naEvent] : List Event),
          (is_never_available samplePrefs.neverAvailablePatterns e = true ∨
            classify_block samplePrefs e = "meeting") →
          s.stop ≤ e.start ∨ e.stop ≤ s.start) :=
  ⟨⟨by decide, by decide, by decide⟩,
   C1_slot_invariants samplePrefs 0 600 30 5 [naEvent] _ (by decide)
     (by decide) (by decide)⟩

/-- C3: on every success result, `usedDeepWork` is true exactly when a
tier-2 (`deep-work`-typed) candidate appears in the final truncated
suggestion list, and `totalFound` is the tier-1 free-slot count plus
the tier-2 slot count when the tier-2 block ran, or the tier-1 count
alone when it did not. -/
theorem C3_totalFound_usedDeepWork :
    ∀ (prefs : Preferences) (sd ed d : Int) (m : Nat) (evs : List Event)
      (r : PlanResult),
      find_meeting_times prefs sd ed d m (.ok evs) = .ok r →
      (r.usedDeepWork = true ↔ ∃ s ∈ r.suggestions, s.type = "deep-work") ∧
      r.totalFound = (freeSlotsOf prefs sd ed d evs).length +
        (if tier2Ran prefs sd ed d m evs then
          (find_deep_work_slots (deepWorkEventsOf prefs evs) d
            prefs.deepWorkBlockUsage (neverAvailEventsOf prefs evs)).length
         else 0) := by
  intro prefs sd ed d m evs r h
  rcases find_meeting_times_ok_cases prefs sd ed d m evs r h with
    ⟨hnot, rfl⟩ | ⟨hran, rfl⟩
  · constructor
    · constructor
      · intro hfalse
        exact absurd hfalse (by simp)
      · rintro ⟨s, hs, hty⟩
        rcases tier1_mem (List.mem_of_mem_take hs) with ⟨hfree, _, _⟩
        rw [hfree] at hty
        exact absurd hty (by decide)
    · rw [if_neg hnot]
      simp
  · obtain ⟨hno_early, _, hlt, hpos⟩ := hran
    have hT := tier1_length prefs sd ed d m evs
    have hTL : (tier1SuggestionsOf prefs sd ed d m evs).length =
        (freeSlotsOf prefs sd ed d evs).length := by
      omega
    constructor
    · constructor
      · intro hdec
        replace hdec : decide ((freeSlotsOf prefs sd ed d evs).length <
            (tier1SuggestionsOf prefs sd ed d m evs ++
              (find_deep_work_slots (deepWorkEventsOf prefs evs) d
                prefs.deepWorkBlockUsage (neverAvailEventsOf prefs evs)).map
                (mkDeepSuggestion prefs.deepWorkBlockUsage d)).length) =
            true := hdec
        have hlen := of_decide_eq_true hdec
        rw [List.length_append, List.length_map] at hlen
        have hD : 0 < ((find_deep_work_slots (deepWorkEventsOf prefs evs) d
            prefs.deepWorkBlockUsage (neverAvailEventsOf prefs evs)).map
            (mkDeepSuggestion prefs.deepWorkBlockUsage d)).length := by
          rw [List.length_map]
          omega
        obtain ⟨s0, D2, hDeq⟩ :
            ∃ s0 D2, (find_deep_work_slots (deepWorkEventsOf prefs evs) d
              prefs.deepWorkBlockUsage (neverAvailEventsOf prefs evs)).map
              (mkDeepSuggestion prefs.deepWorkBlockUsage d) = s0 :: D2 := by
          cases hDmap : (find_deep_work_slots (deepWorkEventsOf prefs evs) d
              prefs.deepWorkBlockUsage (neverAvailEventsOf prefs evs)).map
              (mkDeepSuggestion prefs.deepWorkBlockUsage d) with
          | nil =>
            rw [hDmap] at hD
            simp at hD
          | cons a l => exact ⟨a, l, rfl⟩
        have hs0D : s0 ∈ (find_deep_work_slots (deepWorkEventsOf prefs evs) d
            prefs.deepWorkBlockUsage (neverAvailEventsOf prefs evs)).map
            (mkDeepSuggestion prefs.deepWorkBlockUsage d) := by
          rw [hDeq]
          exact List.mem_cons_self s0 D2
        refine ⟨s0, ?_, ?_⟩
        · rw [hDeq]
          exact mem_take_append s0 _ D2 m hlt
        · rcases List.mem_map.1 hs0D with ⟨slot, _, rfl⟩
          rfl
      · rintro ⟨s, hs, hty⟩
        apply decide_eq_true
        rcases List.mem_append.1 (List.mem_of_mem_take hs) with h1 | h1
        · rcases tier1_mem h1 with ⟨hfree, _, _⟩
          rw [hfree] at hty
          exact absurd hty (by decide)
        · have hne : 0 < ((find_deep_work_slots (deepWorkEventsOf prefs evs) d
              prefs.deepWorkBlockUsage (neverAvailEventsOf prefs evs)).map
              (mkDeepSuggestion prefs.deepWorkBlockUsage d)).length :=
            List.length_pos.2 (List.ne_nil_of_mem h1)
          rw [List.length_append]
          omega
    · rw [if_pos ⟨hno_early, ⟨by assumption, hlt, hpos⟩⟩]

/-- C3 witness: a run on which the tier-2 block fired, with the
metadata equations evaluated on the concrete output. -/
theorem C3_totalFound_usedDeepWork_witness :
    (find_meeting_times samplePrefs 0 600 30 5 (.ok [dwEvent, naEvent]) =
      .ok sampleRunResult) ∧
    ((sampleRunResult.usedDeepWork = true ↔
        ∃ s ∈ sampleRunResult.suggestions, s.type = "deep-work") ∧
      sampleRunResult.totalFound =
        (freeSlotsOf samplePrefs 0 600 30 [dwEvent, naEvent]).length +
          (if tier2Ran samplePrefs 0 600 30 5 [dwEvent, naEvent] then
            (find_deep_work_slots
              (deepWorkEventsOf samplePrefs [dwEvent, naEvent]) 30
              samplePrefs.deepWorkBlockUsage
              (neverAvailEventsOf samplePrefs [dwEvent, naEvent])).length
           else 0)) :=
  ⟨by decide,
   C3_totalFound_usedDeepWork samplePrefs 0 600 30 5 [dwEvent, naEvent]
     sampleRunResult (by decide)⟩

end CalendarMCP
